import Mathlib

/-!
Verification development for the bandwidth derivation engine of
go_collective_profiler: a shallow embedding of
`internal/pkg/bandwidth/bandwidth.go` (the per-call bandwidth calculator
`GetFromCallCounts` and the multi-call aggregator `GetFromCallsCounts`)
and of the per-communicator-instance body of the bandwidth command driver
(`main`), together with theorems about them.

Modelling conventions:
- Go `float64` is modelled as the exact rationals `ℚ`; the verified
  properties are structural (which value is stored where, presence of map
  entries, error propagation, report shape) and do not depend on rounding.
  Note that in `ℚ` division by zero yields `0` whereas IEEE-754 yields a
  non-finite value; no theorem below depends on the value of `x / 0` other
  than through the explicit expression `x / 0`.
- A Go `map[int]V` is modelled as `Int → Option V` with Go's
  read-with-zero-value semantics (`iget`), write (`iput`), and `nil`/empty
  map (`mEmpty`).  A Go `for ... range` producing `m[k] += c` style updates
  is modelled by its per-key denotation.
- A Go function returning `(*T, error)` is modelled as returning
  `Option T × Option String`, with `return nil, err` ↦ `(none, some e)` and
  `return d, nil` ↦ `(some d, none)`.  Loop bodies that may `return`
  early are modelled with `Except String`.
-/

namespace BWProfiler

/-- Go `map[int]V`: partial finite map with explicit absence. -/
abbrev IMap (α : Type) : Type := Int → Option α

/-- Go `nil` map / freshly `make`d empty map. -/
def mEmpty {α : Type} : IMap α := fun _ => none

/-- Go map read `m[k]`: a missing key yields the zero value `dflt`. -/
def iget {α : Type} (m : IMap α) (k : Int) (dflt : α) : α := (m k).getD dflt

/-- Go map write `m[k] = v`. -/
def iput {α : Type} (m : IMap α) (k : Int) (v : α) : IMap α :=
  fun j => if j = k then some v else m j

@[simp] theorem iput_apply_same {α : Type} (m : IMap α) (k : Int) (v : α) :
    iput m k v k = some v := by simp [iput]

theorem iput_apply {α : Type} (m : IMap α) (j k : Int) (v : α) :
    iput m k v j = if j = k then some v else m j := rfl

@[simp] theorem iget_iput_same {α : Type} (m : IMap α) (k : Int) (v d0 : α) :
    iget (iput m k v) k d0 = v := by simp [iget, iput]

theorem iget_iput_other {α : Type} (m : IMap α) (j k : Int) (v d0 : α) (h : j ≠ k) :
    iget (iput m k v) j d0 = iget m j d0 := by simp [iget, iput, h]

/-- The `CallData` struct of `internal/pkg/bandwidth/bandwidth.go`. -/
structure CallData where
  SendData : IMap Int
  RecvData : IMap Int
  SendRankBW : IMap ℚ
  RecvRankBW : IMap ℚ
  ScaledSendRankBW : IMap ℚ
  ScaledSendRankBWUnit : String
  ScaledRecvRankBW : IMap ℚ
  ScaledRecvRankBWUnit : String

/-- Go `new(CallData)` followed by the six `make(map[...])` assignments at
the top of `GetFromCallCounts`: all maps empty, unit strings zero-valued. -/
def newCallData : CallData :=
  ⟨mEmpty, mEmpty, mEmpty, mEmpty, mEmpty, "", mEmpty, ""⟩

/-- The `CallsData` struct: call id → per-call data. -/
structure CallsData where
  CallData : IMap CallData

/-- Type of the Unit Scaler `scale.Float64s`:
base unit and values in, unit label and scaled values out, or an error. -/
abbrev Scaler : Type := String → List ℚ → Except String (String × List ℚ)

/-- Index of the largest power-of-1000 unit whose application keeps the
magnitude in the readable range `[1, 1000)` (capped at tera). -/
def scaleIdx (v : ℚ) : Nat :=
  if abs v < 1000 then 0
  else if abs v < 1000000 then 1
  else if abs v < 1000000000 then 2
  else if abs v < 1000000000000 then 3
  else 4

/-- Unit letter for a power-of-1000 index. -/
def scalePfx (i : Nat) : String := List.getD ["", "K", "M", "G", "T"] i ""

/-- Modelled from the spec: the Unit Scaler `scale.Float64s` of
`internal/pkg/scale`, whose source is not included under `src/`.
Per §4.1 of the spec: fails with a `ScalingError` on an empty value
sequence and an `InvalidUnitError` on an unrecognized base unit (only the
base unit "B/s", the one the bandwidth package uses, is modelled as
recognized); a first value of exactly 0 bypasses scaling and returns the
base unit and the values unchanged; otherwise it picks the largest
power-of-1000 prefix (K, M, G, T) keeping the first value's magnitude in
`[1, 1000)` and divides every value by that factor. -/
def scaleFloat64s : Scaler := fun baseUnit values =>
  if values.isEmpty then Except.error "scale: empty value sequence"
  else if baseUnit = "B/s" then
    let v := values.headD 0
    if v = 0 then Except.ok (baseUnit, values)
    else
      let i := scaleIdx v
      Except.ok (scalePfx i ++ baseUnit, values.map (fun x => x / (1000 : ℚ) ^ i))
  else Except.error "scale: unrecognized base unit"

/-- `float64(sendCounts[rank]) / execTimes[rank]` — the per-rank bandwidth
expression of lines 56–57 of `bandwidth.go`. -/
def sbwOf (counts : IMap Int) (execTimes : IMap ℚ) (rank : Int) : ℚ :=
  ((iget counts rank 0 : Int) : ℚ) / iget execTimes rank 0

/-- Body of one iteration of the `for rank` loop of `GetFromCallCounts`
(lines 52–81 of `bandwidth.go`): store the raw send/recv bandwidths, then
scale each through the Unit Scaler unless it is exactly zero, with early
`return nil, err` on a scaler failure modelled as `Except.error`. -/
def bwStep (scaleF : Scaler) (sendCounts recvCounts : IMap Int) (execTimes : IMap ℚ)
    (rank : Int) (d : CallData) : Except String CallData :=
  let d := { d with
    SendRankBW := iput d.SendRankBW rank (sbwOf sendCounts execTimes rank),
    RecvRankBW := iput d.RecvRankBW rank (sbwOf recvCounts execTimes rank) }
  let sendRes :=
    if iget d.SendRankBW rank 0 ≠ 0 then
      match scaleF "B/s" [iget d.SendRankBW rank 0] with
      | Except.error e => Except.error e
      | Except.ok (unit, scaledSendBW) =>
          Except.ok { d with
            ScaledSendRankBWUnit := unit,
            ScaledSendRankBW := iput d.ScaledSendRankBW rank (scaledSendBW.headD 0) }
    else
      Except.ok { d with
        ScaledSendRankBW := iput d.ScaledSendRankBW rank (iget d.SendRankBW rank 0),
        ScaledSendRankBWUnit := "B/s" }
  match sendRes with
  | Except.error e => Except.error e
  | Except.ok d =>
    if iget d.RecvRankBW rank 0 ≠ 0 then
      match scaleF "B/s" [iget d.RecvRankBW rank 0] with
      | Except.error e => Except.error e
      | Except.ok (unit, scaledRecvBW) =>
          Except.ok { d with
            ScaledRecvRankBWUnit := unit,
            ScaledRecvRankBW := iput d.ScaledRecvRankBW rank (scaledRecvBW.headD 0) }
    else
      Except.ok { d with
        ScaledRecvRankBW := iput d.ScaledRecvRankBW rank (iget d.RecvRankBW rank 0),
        ScaledRecvRankBWUnit := "B/s" }

/-- The `for rank := 0; rank < ranks; rank++` loop of `GetFromCallCounts`,
over an explicit list of ranks, threading the `CallData` under construction
and propagating an early `return nil, err`. -/
def bwLoop (scaleF : Scaler) (sendCounts recvCounts : IMap Int) (execTimes : IMap ℚ) :
    List Int → CallData → Except String CallData
  | [], d => Except.ok d
  | rank :: rest, d =>
    match bwStep scaleF sendCounts recvCounts execTimes rank d with
    | Except.error e => Except.error e
    | Except.ok d2 => bwLoop scaleF sendCounts recvCounts execTimes rest d2

/-- The rank (or call-id) iteration space of a Go
`for i := 0; i < n; i++` loop: `[0, 1, ..., n-1]`, empty when `n ≤ 0`. -/
def goIntRange (n : Int) : List Int := (List.range n.toNat).map Int.ofNat

/-- `GetFromCallCounts` generalized over the Unit Scaler it invokes (the
scaler is an import boundary: `scale.Float64s` lives in another package).
Returns the Go pair `(*CallData, error)`. -/
def GetFromCallCountsGen (scaleF : Scaler) (ranks : Int) (sendCounts recvCounts : IMap Int)
    (sendDatatypeSize recvDatatypeSize : Int) (execTimes : IMap ℚ) :
    Option CallData × Option String :=
  match bwLoop scaleF sendCounts recvCounts execTimes (goIntRange ranks) newCallData with
  | Except.ok d => (some d, none)
  | Except.error e => (none, some e)

/-- `GetFromCallCounts` of `bandwidth.go` (lines 43–83): the per-call
bandwidth calculator, with the Unit Scaler instantiated to the modelled
`scale.Float64s`. -/
def GetFromCallCounts (ranks : Int) (sendCounts recvCounts : IMap Int)
    (sendDatatypeSize recvDatatypeSize : Int) (execTimes : IMap ℚ) :
    Option CallData × Option String :=
  GetFromCallCountsGen scaleFloat64s ranks sendCounts recvCounts
    sendDatatypeSize recvDatatypeSize execTimes

/-- The `for call` loop of `GetFromCallsCounts` (lines 99–104): compute
each call's `CallData`, store it, and `return nil, err` on failure. -/
def callsLoop (scaleF : Scaler) (ranks : Int) (sendCounts recvCounts : IMap (IMap Int))
    (sendDatatypeSize recvDatatypeSize : Int) (execTimes : IMap (IMap ℚ)) :
    List Int → IMap CallData → Except String (IMap CallData)
  | [], m => Except.ok m
  | call :: rest, m =>
    match GetFromCallCountsGen scaleF ranks (iget sendCounts call mEmpty)
        (iget recvCounts call mEmpty) sendDatatypeSize recvDatatypeSize
        (iget execTimes call mEmpty) with
    | (_, some e) => Except.error e
    | (cd, none) =>
      callsLoop scaleF ranks sendCounts recvCounts sendDatatypeSize recvDatatypeSize
        execTimes rest (iput m call (cd.getD newCallData))

/-- `GetFromCallsCounts` generalized over the Unit Scaler. -/
def GetFromCallsCountsGen (scaleF : Scaler) (numCalls ranks : Int)
    (sendCounts recvCounts : IMap (IMap Int)) (sendDatatypeSize recvDatatypeSize : Int)
    (execTimes : IMap (IMap ℚ)) : Option CallsData × Option String :=
  match callsLoop scaleF ranks sendCounts recvCounts sendDatatypeSize recvDatatypeSize
      execTimes (goIntRange numCalls) mEmpty with
  | Except.ok m => (some ⟨m⟩, none)
  | Except.error e => (none, some e)

/-- `GetFromCallsCounts` of `bandwidth.go` (lines 95–106): the multi-call
bandwidth aggregator. -/
def GetFromCallsCounts (numCalls ranks : Int) (sendCounts recvCounts : IMap (IMap Int))
    (sendDatatypeSize recvDatatypeSize : Int) (execTimes : IMap (IMap ℚ)) :
    Option CallsData × Option String :=
  GetFromCallsCountsGen scaleFloat64s numCalls ranks sendCounts recvCounts
    sendDatatypeSize recvDatatypeSize execTimes

/-- `GetOutputFilename` of `bandwidth.go` (line 108). -/
def GetOutputFilename (leadRank : Int) : String :=
  "bandwidth-percall-comm" ++ toString leadRank ++ ".md"

/-! ### The per-communicator-instance body of the bandwidth command driver -/

/-- Per-key denotation of the raw-count reduction loop of the driver
(`for rank, counts := range ranksData { for _, c := range counts
{ sendData[callId][rank] += c } }`): a rank whose raw list is absent or
empty gets no entry (the `+=` that would create it never runs); otherwise
the entry is the running sum of the list. -/
def reduceRanksData (ranksData : IMap (List Int)) : IMap Int := fun rank =>
  match ranksData rank with
  | none => none
  | some cs => if cs.isEmpty then none else some (cs.foldl (fun a c => a + c) 0)

/-- The driver's raw-count reduction over all calls: for each call id
present in the raw data, reduce its per-rank raw count lists to integer
totals (lines 222–242 of the driver). -/
def reduceCounts (raw : IMap (IMap (List Int))) : IMap (IMap Int) := fun call =>
  match raw call with
  | none => none
  | some rd => some (reduceRanksData rd)

/-- Go `sort.Ints` (ascending). -/
def sortInts (l : List Int) : List Int := List.insertionSort (fun a b => a ≤ b) l

/-- Round a rational to the nearest integer, ties to even (the rounding
used to model Go's `%.2f` fixed-point formatting of `float64`). -/
def roundHE (q : ℚ) : Int :=
  let f := ⌊q⌋
  let r := q - f
  if r < 1 / 2 then f
  else if 1 / 2 < r then f + 1
  else if f % 2 = 0 then f else f + 1

/-- Left-pad the fractional part to two digits. -/
def twoDigits (n : Nat) : String :=
  (if n < 10 then "0" else "") ++ toString n

/-- Model of Go's `fmt.Sprintf("%.2f", x)`: the value rounded to two
decimal places with an always-present two-digit fractional part. -/
def fmt2 (q : ℚ) : String :=
  let n := roundHE (q * 100)
  (if n < 0 then "-" else "") ++ toString (n.natAbs / 100) ++ "." ++ twoDigits (n.natAbs % 100)

/-- One iteration of the driver's report-writing loop (lines 292–311):
append the call header and column-header write, then one
`"%.2f\t%.2f\n"` line per rank using the unscaled bandwidths, then the
blank-line separating write. A call id missing from the computed data is a
nil `*CallData` in Go; it is totalized to `newCallData` (the driver only
renders call ids it just computed). -/
def renderCallBlock (bw : CallsData) (numRanks : Int) (acc : String) (callId : Int) : String :=
  let acc := acc ++ "# Call " ++ toString callId ++ "\nsend BW (B/s)\treceive BW (B/s)\n"
  let d := (bw.CallData callId).getD newCallData
  let acc := (goIntRange numRanks).foldl
    (fun a rank => a ++ fmt2 (iget d.SendRankBW rank 0) ++ "\t" ++ fmt2 (iget d.RecvRankBW rank 0) ++ "\n") acc
  acc ++ "\n"

/-- The driver's full report text: the concatenation of the per-call
blocks over `allCalls`, in list order (the driver passes the sorted call
ids). -/
def renderReport (allCalls : List Int) (bw : CallsData) (numRanks : Int) : String :=
  allCalls.foldl (renderCallBlock bw numRanks) ""

/-- The three fields the driver reads off the first raw count record:
`commCounts[0].Counts.CommSize`, `.SendDatatypeSize`, `.RecvDatatypeSize`. -/
structure CountsHeader where
  CommSize : Int
  SendDatatypeSize : Int
  RecvDatatypeSize : Int

/-- The per-communicator-instance computation of the driver's `main`
(lines 221–311), after the external parsers have produced the raw compact
counts, the call-id list and the execution-time table: reduce the raw
counts, sort the call ids, validate the header-derived sizes (each zero
check `os.Exit(1)`s, modelled as `Except.error`), invoke the aggregator,
and on success render the report text that `main` writes to the output
file. -/
def driverInstance (hdr : CountsHeader) (callIds : List Int)
    (rawSend rawRecv : IMap (IMap (List Int))) (execTimes : IMap (IMap ℚ)) :
    Except String String :=
  let sendData := reduceCounts rawSend
  let recvData := reduceCounts rawRecv
  let allCalls := sortInts callIds
  if hdr.CommSize = 0 then Except.error "invalid number of ranks"
  else if hdr.SendDatatypeSize = 0 then Except.error "invalid send datatype size"
  else if hdr.RecvDatatypeSize = 0 then Except.error "invalid recv datatype size"
  else
    match GetFromCallsCounts (Int.ofNat callIds.length) hdr.CommSize sendData recvData
        hdr.SendDatatypeSize hdr.RecvDatatypeSize execTimes with
    | (_, some e) => Except.error e
    | (bwData, none) => Except.ok (renderReport allCalls (bwData.getD ⟨mEmpty⟩) hdr.CommSize)

/-! ### The report format as the spec words it (§4.4 step 5, §8) -/

/-- Concatenation of a list of strings (no separator). -/
def strJoin : List String → String
  | [] => ""
  | s :: rest => s ++ strJoin rest

/-- Follows the spec text: one report line per rank, the unscaled send and
receive bandwidths formatted to 2 decimal places, tab-separated. -/
def specRankLine (d : CallData) (rank : Int) : String :=
  fmt2 (iget d.SendRankBW rank 0) ++ "\t" ++ fmt2 (iget d.RecvRankBW rank 0) ++ "\n"

/-- Follows the spec text: for one call, a header line identifying the
call, a column-header line, one line per rank in ascending rank order,
then exactly one blank line. -/
def specCallBlock (bw : CallsData) (numRanks : Int) (callId : Int) : String :=
  "# Call " ++ toString callId ++ "\n" ++
  "send BW (B/s)\treceive BW (B/s)\n" ++
  strJoin ((goIntRange numRanks).map (specRankLine ((bw.CallData callId).getD newCallData))) ++
  "\n"

/-- Follows the spec text: the whole report is the per-call blocks for
each call id in ascending order. -/
def specReport (callIds : List Int) (bw : CallsData) (numRanks : Int) : String :=
  strJoin ((sortInts callIds).map (specCallBlock bw numRanks))

/-! ### Characterization of the modelled Unit Scaler on the calls the
bandwidth package makes (base unit "B/s", singleton value list) -/

/-- The unit label the modelled Scaler returns for a single value. -/
def scaleUnitOf (v : ℚ) : String :=
  if v = 0 then "B/s" else scalePfx (scaleIdx v) ++ "B/s"

/-- The scaled value the modelled Scaler returns for a single value. -/
def scaleValOf (v : ℚ) : ℚ :=
  if v = 0 then v else v / (1000 : ℚ) ^ scaleIdx v

theorem scaleFloat64s_eq (v : ℚ) :
    scaleFloat64s "B/s" [v] = Except.ok (scaleUnitOf v, [scaleValOf v]) := by
  by_cases h : v = 0 <;> simp [scaleFloat64s, scaleUnitOf, scaleValOf, h]

/-- The net effect of one iteration of the `for rank` loop of
`GetFromCallCounts` when the Unit Scaler is the modelled `scale.Float64s`
(which cannot fail on a `"B/s"` singleton). -/
def stepPureC (sc rc : IMap Int) (t : IMap ℚ) (k : Int) (d : CallData) : CallData :=
  { SendData := d.SendData
    RecvData := d.RecvData
    SendRankBW := iput d.SendRankBW k (sbwOf sc t k)
    RecvRankBW := iput d.RecvRankBW k (sbwOf rc t k)
    ScaledSendRankBW := iput d.ScaledSendRankBW k (scaleValOf (sbwOf sc t k))
    ScaledSendRankBWUnit := scaleUnitOf (sbwOf sc t k)
    ScaledRecvRankBW := iput d.ScaledRecvRankBW k (scaleValOf (sbwOf rc t k))
    ScaledRecvRankBWUnit := scaleUnitOf (sbwOf rc t k) }

theorem bwStep_scaleFloat64s (sc rc : IMap Int) (t : IMap ℚ) (k : Int) (d : CallData) :
    bwStep scaleFloat64s sc rc t k d = Except.ok (stepPureC sc rc t k d) := by
  by_cases hs : sbwOf sc t k = 0 <;> by_cases hr : sbwOf rc t k = 0 <;>
    simp [bwStep, stepPureC, scaleFloat64s_eq, scaleUnitOf, scaleValOf, hs, hr]

theorem bwLoop_scaleFloat64s (sc rc : IMap Int) (t : IMap ℚ) :
    ∀ (L : List Int) (d : CallData),
      bwLoop scaleFloat64s sc rc t L d =
        Except.ok (L.foldl (fun d k => stepPureC sc rc t k d) d) := by
  intro L
  induction L with
  | nil => intro d; rfl
  | cons k rest ih => intro d; simp [bwLoop, bwStep_scaleFloat64s, ih]

theorem foldl_iput_apply {α : Type} (f : Int → α) :
    ∀ (L : List Int) (m : IMap α) (j : Int),
      (L.foldl (fun m k => iput m k (f k)) m) j = if j ∈ L then some (f j) else m j := by
  intro L
  induction L with
  | nil => intro m j; simp
  | cons k rest ih =>
    intro m j
    by_cases hj : j ∈ rest
    · simp [List.foldl_cons, ih, hj]
    · by_cases hk : j = k <;> simp [List.foldl_cons, ih, hj, hk, iput]

theorem stepFold_fields (sc rc : IMap Int) (t : IMap ℚ) :
    ∀ (L : List Int) (d : CallData),
      (L.foldl (fun d k => stepPureC sc rc t k d) d).SendData = d.SendData ∧
      (L.foldl (fun d k => stepPureC sc rc t k d) d).RecvData = d.RecvData ∧
      (L.foldl (fun d k => stepPureC sc rc t k d) d).SendRankBW
        = L.foldl (fun m k => iput m k (sbwOf sc t k)) d.SendRankBW ∧
      (L.foldl (fun d k => stepPureC sc rc t k d) d).RecvRankBW
        = L.foldl (fun m k => iput m k (sbwOf rc t k)) d.RecvRankBW ∧
      (L.foldl (fun d k => stepPureC sc rc t k d) d).ScaledSendRankBW
        = L.foldl (fun m k => iput m k (scaleValOf (sbwOf sc t k))) d.ScaledSendRankBW ∧
      (L.foldl (fun d k => stepPureC sc rc t k d) d).ScaledRecvRankBW
        = L.foldl (fun m k => iput m k (scaleValOf (sbwOf rc t k))) d.ScaledRecvRankBW := by
  intro L
  induction L with
  | nil => intro d; exact ⟨rfl, rfl, rfl, rfl, rfl, rfl⟩
  | cons k rest ih =>
    intro d
    simpa [List.foldl_cons, stepPureC] using ih (stepPureC sc rc t k d)

theorem goIntRange_mem (n : Int) (j : Int) : j ∈ goIntRange n ↔ 0 ≤ j ∧ j < n := by
  simp only [goIntRange, List.mem_map, List.mem_range, Int.ofNat_eq_natCast]
  constructor
  · rintro ⟨i, hi, rfl⟩; omega
  · intro h; exact ⟨j.toNat, by omega, by omega⟩

/-- Full characterization of `GetFromCallCounts` (with the modelled
Scaler): it always succeeds; the four bandwidth maps have exactly the
entries `0 .. ranks-1`; the two byte-count maps stay empty. -/
theorem getFromCallCounts_char (ranks : Int) (sc rc : IMap Int) (a b : Int) (t : IMap ℚ) :
    ∃ d : CallData, GetFromCallCounts ranks sc rc a b t = (some d, none) ∧
      (∀ k, d.SendRankBW k = if 0 ≤ k ∧ k < ranks then some (sbwOf sc t k) else none) ∧
      (∀ k, d.RecvRankBW k = if 0 ≤ k ∧ k < ranks then some (sbwOf rc t k) else none) ∧
      (∀ k, d.ScaledSendRankBW k
        = if 0 ≤ k ∧ k < ranks then some (scaleValOf (sbwOf sc t k)) else none) ∧
      (∀ k, d.ScaledRecvRankBW k
        = if 0 ≤ k ∧ k < ranks then some (scaleValOf (sbwOf rc t k)) else none) ∧
      (∀ k, d.SendData k = none) ∧ (∀ k, d.RecvData k = none) := by
  refine ⟨(goIntRange ranks).foldl (fun d k => stepPureC sc rc t k d) newCallData, ?_, ?_⟩
  · unfold GetFromCallCounts GetFromCallCountsGen
    rw [bwLoop_scaleFloat64s]
  · obtain ⟨h1, h2, h3, h4, h5, h6⟩ := stepFold_fields sc rc t (goIntRange ranks) newCallData
    refine ⟨?_, ?_, ?_, ?_, ?_, ?_⟩ <;>
      intro k <;>
      simp only [h1, h2, h3, h4, h5, h6, foldl_iput_apply] <;>
      simp [goIntRange_mem, newCallData, mEmpty]

/-! ### Generic-scaler inversion lemmas: what a successful loop iteration
does, whatever Unit Scaler is linked in -/

theorem bwStep_ok_shape (f : Scaler) (sc rc : IMap Int) (t : IMap ℚ) (k : Int) (d d2 : CallData)
    (h : bwStep f sc rc t k d = Except.ok d2) :
    d2.SendData = d.SendData ∧ d2.RecvData = d.RecvData ∧
    d2.SendRankBW = iput d.SendRankBW k (sbwOf sc t k) ∧
    d2.RecvRankBW = iput d.RecvRankBW k (sbwOf rc t k) ∧
    (∃ v, d2.ScaledSendRankBW = iput d.ScaledSendRankBW k v) ∧
    (∃ w, d2.ScaledRecvRankBW = iput d.ScaledRecvRankBW k w) ∧
    (sbwOf sc t k = 0 →
      d2.ScaledSendRankBW = iput d.ScaledSendRankBW k 0 ∧ d2.ScaledSendRankBWUnit = "B/s") ∧
    (sbwOf rc t k = 0 →
      d2.ScaledRecvRankBW = iput d.ScaledRecvRankBW k 0 ∧ d2.ScaledRecvRankBWUnit = "B/s") := by
  unfold bwStep at h
  simp only [iget_iput_same] at h
  split at h
  · exact Except.noConfusion h
  · rename_i dmid heq
    split at heq
    · rename_i hzs
      split at heq
      · exact Except.noConfusion heq
      · rename_i p u vs hf
        injection heq with heq
        subst heq
        dsimp only at h
        simp only [iget_iput_same] at h
        split at h
        · rename_i hzr
          split at h
          · exact Except.noConfusion h
          · rename_i p2 u2 vs2 hg
            injection h with h
            subst h
            exact ⟨rfl, rfl, rfl, rfl, ⟨_, rfl⟩, ⟨_, rfl⟩,
              fun h0 => absurd h0 hzs, fun h0 => absurd h0 hzr⟩
        · rename_i hzr
          injection h with h
          subst h
          exact ⟨rfl, rfl, rfl, rfl, ⟨_, rfl⟩, ⟨_, rfl⟩,
            fun h0 => absurd h0 hzs,
            fun h0 => ⟨by rw [h0], rfl⟩⟩
    · rename_i hzs
      injection heq with heq
      subst heq
      dsimp only at h
      simp only [iget_iput_same] at h
      split at h
      · rename_i hzr
        split at h
        · exact Except.noConfusion h
        · rename_i p2 u2 vs2 hg
          injection h with h
          subst h
          exact ⟨rfl, rfl, rfl, rfl, ⟨_, rfl⟩, ⟨_, rfl⟩,
            fun h0 => ⟨by rw [h0], rfl⟩, fun h0 => absurd h0 hzr⟩
      · rename_i hzr
        injection h with h
        subst h
        exact ⟨rfl, rfl, rfl, rfl, ⟨_, rfl⟩, ⟨_, rfl⟩,
          fun h0 => ⟨by rw [h0], rfl⟩, fun h0 => ⟨by rw [h0], rfl⟩⟩

theorem bwLoop_ok_frame (f : Scaler) (sc rc : IMap Int) (t : IMap ℚ) :
    ∀ (L : List Int) (d d2 : CallData), bwLoop f sc rc t L d = Except.ok d2 →
      ∀ j : Int, j ∉ L →
        d2.SendRankBW j = d.SendRankBW j ∧ d2.RecvRankBW j = d.RecvRankBW j ∧
        d2.ScaledSendRankBW j = d.ScaledSendRankBW j ∧
        d2.ScaledRecvRankBW j = d.ScaledRecvRankBW j := by
  intro L
  induction L with
  | nil =>
    intro d d2 h j _
    injection h with h
    subst h
    exact ⟨rfl, rfl, rfl, rfl⟩
  | cons k rest ih =>
    intro d d2 h j hj
    rw [List.mem_cons, not_or] at hj
    obtain ⟨hjk, hjrest⟩ := hj
    unfold bwLoop at h
    rcases hstep : bwStep f sc rc t k d with e | dmid
    · rw [hstep] at h; exact Except.noConfusion h
    · rw [hstep] at h
      obtain ⟨h1, h2⟩ := ih dmid d2 h j hjrest
      obtain ⟨_, _, hsb, hrb, ⟨v, hss⟩, ⟨w, hsr⟩, _, _⟩ :=
        bwStep_ok_shape f sc rc t k d dmid hstep
      refine ⟨?_, ?_, ?_, ?_⟩ <;>
        simp_all [iput_apply, hjk]

theorem bwLoop_ok_zero (f : Scaler) (sc rc : IMap Int) (t : IMap ℚ) :
    ∀ (L : List Int) (d d2 : CallData), bwLoop f sc rc t L d = Except.ok d2 →
      ∀ j ∈ L,
        (sbwOf sc t j = 0 → d2.ScaledSendRankBW j = some 0) ∧
        (sbwOf rc t j = 0 → d2.ScaledRecvRankBW j = some 0) := by
  intro L
  induction L with
  | nil => intro d d2 _ j hj; exact absurd hj (List.not_mem_nil j)
  | cons k rest ih =>
    intro d d2 h j hj
    unfold bwLoop at h
    rcases hstep : bwStep f sc rc t k d with e | dmid
    · rw [hstep] at h; exact Except.noConfusion h
    · rw [hstep] at h
      by_cases hjrest : j ∈ rest
      · exact ih dmid d2 h j hjrest
      · have hjk : j = k := by
          rcases List.mem_cons.mp hj with h0 | h0
          · exact h0
          · exact absurd h0 hjrest
        subst hjk
        obtain ⟨_, _, hfrS, hfrR⟩ := bwLoop_ok_frame f sc rc t rest dmid d2 h j hjrest
        obtain ⟨_, _, _, _, _, _, hz1, hz2⟩ := bwStep_ok_shape f sc rc t j d dmid hstep
        constructor
        · intro h0
          rw [hfrS, (hz1 h0).1]
          exact iput_apply_same _ _ _
        · intro h0
          rw [hfrR, (hz2 h0).1]
          exact iput_apply_same _ _ _

theorem bwLoop_ok_last_unit (f : Scaler) (sc rc : IMap Int) (t : IMap ℚ) :
    ∀ (L : List Int) (d d2 : CallData) (k : Int), bwLoop f sc rc t L d = Except.ok d2 →
      L.getLast? = some k →
      (sbwOf sc t k = 0 → d2.ScaledSendRankBWUnit = "B/s") ∧
      (sbwOf rc t k = 0 → d2.ScaledRecvRankBWUnit = "B/s") := by
  intro L
  induction L with
  | nil => intro d d2 k _ hlast; exact Option.noConfusion hlast
  | cons k1 rest ih =>
    intro d d2 k h hlast
    unfold bwLoop at h
    rcases hstep : bwStep f sc rc t k1 d with e | dmid
    · rw [hstep] at h; exact Except.noConfusion h
    · rw [hstep] at h
      cases rest with
      | nil =>
        simp only [List.getLast?_singleton, Option.some.injEq] at hlast
        subst hlast
        injection h with h
        subst h
        obtain ⟨_, _, _, _, _, _, hz1, hz2⟩ := bwStep_ok_shape f sc rc t k1 d dmid hstep
        exact ⟨fun h0 => (hz1 h0).2, fun h0 => (hz2 h0).2⟩
      | cons k2 rest2 =>
        rw [List.getLast?_cons_cons] at hlast
        exact ih dmid d2 k h hlast

theorem goIntRange_getLast (n : Int) (h : 0 < n) :
    (goIntRange n).getLast? = some (n - 1) := by
  have hn : n.toNat = (n.toNat - 1) + 1 := by omega
  unfold goIntRange
  rw [hn, List.range_succ, List.map_append]
  rw [List.getLast?_append_of_ne_nil _ (by simp)]
  simp only [List.map_cons, List.map_nil, List.getLast?_singleton, Option.some.injEq,
    Int.ofNat_eq_natCast]
  omega

/-- `GetFromCallCountsGen` returns either data with no error or an error
with no data (`return d, nil` / `return nil, err`), never anything else. -/
theorem getFromCallCountsGen_cases (f : Scaler) (ranks : Int) (sc rc : IMap Int)
    (a b : Int) (t : IMap ℚ) :
    (∃ d, GetFromCallCountsGen f ranks sc rc a b t = (some d, none)) ∨
    (∃ e, GetFromCallCountsGen f ranks sc rc a b t = (none, some e)) := by
  unfold GetFromCallCountsGen
  rcases bwLoop f sc rc t (goIntRange ranks) newCallData with e | d
  · exact Or.inr ⟨e, rfl⟩
  · exact Or.inl ⟨d, rfl⟩

theorem callsLoop_ok_entries (f : Scaler) (ranks : Int) (scc rcc : IMap (IMap Int))
    (a b : Int) (tt : IMap (IMap ℚ)) :
    ∀ (L : List Int) (m m2 : IMap CallData),
      callsLoop f ranks scc rcc a b tt L m = Except.ok m2 →
      (∀ c ∈ L, ∃ cd, GetFromCallCountsGen f ranks (iget scc c mEmpty) (iget rcc c mEmpty)
          a b (iget tt c mEmpty) = (some cd, none) ∧ m2 c = some cd) ∧
      (∀ c : Int, c ∉ L → m2 c = m c) := by
  intro L
  induction L with
  | nil =>
    intro m m2 h
    injection h with h
    subst h
    exact ⟨fun c hc => absurd hc (List.not_mem_nil c), fun c _ => rfl⟩
  | cons c1 rest ih =>
    intro m m2 h
    unfold callsLoop at h
    rcases hcall : GetFromCallCountsGen f ranks (iget scc c1 mEmpty) (iget rcc c1 mEmpty)
        a b (iget tt c1 mEmpty) with ⟨cd, err⟩
    rw [hcall] at h
    cases err with
    | some e => exact Except.noConfusion h
    | none =>
      obtain ⟨d1, hd1⟩ : ∃ d1, cd = some d1 := by
        rcases getFromCallCountsGen_cases f ranks (iget scc c1 mEmpty) (iget rcc c1 mEmpty)
            a b (iget tt c1 mEmpty) with ⟨d1, hh⟩ | ⟨e, hh⟩
        · rw [hcall] at hh
          exact ⟨d1, (Prod.mk.injEq _ _ _ _ ▸ hh).1⟩
        · rw [hcall] at hh
          exact absurd (Prod.mk.injEq _ _ _ _ ▸ hh).2 (by simp)
      subst hd1
      obtain ⟨hmem, hfr⟩ := ih (iput m c1 ((some d1).getD newCallData)) m2 h
      constructor
      · intro c hc
        by_cases hcrest : c ∈ rest
        · exact hmem c hcrest
        · have hcc1 : c = c1 := by
            rcases List.mem_cons.mp hc with h0 | h0
            · exact h0
            · exact absurd h0 hcrest
          subst hcc1
          refine ⟨d1, hcall, ?_⟩
          rw [hfr c hcrest]
          exact iput_apply_same _ _ _
      · intro c hc
        rw [List.mem_cons, not_or] at hc
        rw [hfr c hc.2, iput_apply, if_neg hc.1]

/-! ### The computation depends only on the extensional content of its
input maps (read through Go's zero-defaulting lookup) -/

theorem bwStep_congr (f : Scaler) (sc sc2 rc rc2 : IMap Int) (t t2 : IMap ℚ) (k : Int)
    (d : CallData)
    (hs : iget sc k 0 = iget sc2 k 0) (hr : iget rc k 0 = iget rc2 k 0)
    (ht : iget t k 0 = iget t2 k 0) :
    bwStep f sc rc t k d = bwStep f sc2 rc2 t2 k d := by
  have h1 : sbwOf sc t k = sbwOf sc2 t2 k := by rw [sbwOf, sbwOf, hs, ht]
  have h2 : sbwOf rc t k = sbwOf rc2 t2 k := by rw [sbwOf, sbwOf, hr, ht]
  unfold bwStep
  rw [h1, h2]

theorem bwLoop_congr (f : Scaler) (sc sc2 rc rc2 : IMap Int) (t t2 : IMap ℚ)
    (hs : ∀ k, iget sc k 0 = iget sc2 k 0) (hr : ∀ k, iget rc k 0 = iget rc2 k 0)
    (ht : ∀ k, iget t k 0 = iget t2 k 0) :
    ∀ (L : List Int) (d : CallData),
      bwLoop f sc rc t L d = bwLoop f sc2 rc2 t2 L d := by
  intro L
  induction L with
  | nil => intro d; rfl
  | cons k rest ih =>
    intro d
    unfold bwLoop
    rw [bwStep_congr f sc sc2 rc rc2 t t2 k d (hs k) (hr k) (ht k)]
    rcases bwStep f sc2 rc2 t2 k d with e | d2
    · rfl
    · exact ih d2

theorem getFromCallCountsGen_congr (f : Scaler) (ranks : Int) (sc sc2 rc rc2 : IMap Int)
    (a b : Int) (t t2 : IMap ℚ)
    (hs : ∀ k, iget sc k 0 = iget sc2 k 0) (hr : ∀ k, iget rc k 0 = iget rc2 k 0)
    (ht : ∀ k, iget t k 0 = iget t2 k 0) :
    GetFromCallCountsGen f ranks sc rc a b t = GetFromCallCountsGen f ranks sc2 rc2 a b t2 := by
  unfold GetFromCallCountsGen
  rw [bwLoop_congr f sc sc2 rc rc2 t t2 hs hr ht (goIntRange ranks) newCallData]

theorem callsLoop_congr (f : Scaler) (ranks : Int) (scc scc2 rcc rcc2 : IMap (IMap Int))
    (a b : Int) (tt tt2 : IMap (IMap ℚ))
    (hs : ∀ c k, iget (iget scc c mEmpty) k 0 = iget (iget scc2 c mEmpty) k 0)
    (hr : ∀ c k, iget (iget rcc c mEmpty) k 0 = iget (iget rcc2 c mEmpty) k 0)
    (ht : ∀ c k, iget (iget tt c mEmpty) k 0 = iget (iget tt2 c mEmpty) k 0) :
    ∀ (L : List Int) (m : IMap CallData),
      callsLoop f ranks scc rcc a b tt L m = callsLoop f ranks scc2 rcc2 a b tt2 L m := by
  intro L
  induction L with
  | nil => intro m; rfl
  | cons c rest ih =>
    intro m
    unfold callsLoop
    rw [getFromCallCountsGen_congr f ranks (iget scc c mEmpty) (iget scc2 c mEmpty)
      (iget rcc c mEmpty) (iget rcc2 c mEmpty) a b (iget tt c mEmpty) (iget tt2 c mEmpty)
      (hs c) (hr c) (ht c)]
    rcases GetFromCallCountsGen f ranks (iget scc2 c mEmpty) (iget rcc2 c mEmpty) a b
      (iget tt2 c mEmpty) with ⟨cd, err⟩
    cases err with
    | some e => rfl
    | none => exact ih (iput m c (cd.getD newCallData))

/-! ### The rendered report equals its specification wording -/

theorem foldl_append_strJoin (g : Int → String) :
    ∀ (L : List Int) (s : String),
      L.foldl (fun a x => a ++ g x) s = s ++ strJoin (L.map g) := by
  intro L
  induction L with
  | nil => intro s; simp [strJoin, String.append_empty]
  | cons x xs ih =>
    intro s
    rw [List.foldl_cons, List.map_cons, ih, strJoin, String.append_assoc]

theorem renderCallBlock_eq_specCallBlock (bw : CallsData) (numRanks : Int)
    (acc : String) (callId : Int) :
    renderCallBlock bw numRanks acc callId = acc ++ specCallBlock bw numRanks callId := by
  have hlit : ("\nsend BW (B/s)\treceive BW (B/s)\n" : String)
      = "\n" ++ "send BW (B/s)\treceive BW (B/s)\n" := rfl
  unfold renderCallBlock specCallBlock specRankLine
  dsimp only
  rw [hlit]
  simp only [String.append_assoc]
  rw [foldl_append_strJoin]
  simp only [String.append_assoc]

theorem renderReport_eq_strJoin (bw : CallsData) (numRanks : Int) :
    ∀ (L : List Int), renderReport L bw numRanks = strJoin (L.map (specCallBlock bw numRanks)) := by
  have haux : ∀ (L : List Int) (s : String),
      L.foldl (renderCallBlock bw numRanks) s = s ++ strJoin (L.map (specCallBlock bw numRanks)) := by
    intro L
    induction L with
    | nil => intro s; simp [strJoin, String.append_empty]
    | cons x xs ih =>
      intro s
      rw [List.foldl_cons, List.map_cons, renderCallBlock_eq_specCallBlock, ih, strJoin,
        String.append_assoc]
  intro L
  rw [renderReport, haux, String.empty_append]

/-! ### Remaining helper lemmas -/

theorem getFromCallCountsGen_ok_inv (f : Scaler) (ranks : Int) (sc rc : IMap Int)
    (a b : Int) (t : IMap ℚ) (d : CallData)
    (h : GetFromCallCountsGen f ranks sc rc a b t = (some d, none)) :
    bwLoop f sc rc t (goIntRange ranks) newCallData = Except.ok d := by
  unfold GetFromCallCountsGen at h
  rcases hb : bwLoop f sc rc t (goIntRange ranks) newCallData with e | d0 <;> rw [hb] at h
  · exact absurd h (by simp)
  · simp only [Prod.mk.injEq, Option.some.injEq] at h
    rw [h.1]

theorem getFromCallCounts_domain (ranks : Int) (sc rc : IMap Int) (a b : Int) (t : IMap ℚ)
    (d : CallData) (hd : GetFromCallCounts ranks sc rc a b t = (some d, none)) :
    ∀ k : Int,
      ((d.SendRankBW k).isSome ↔ (0 ≤ k ∧ k < ranks)) ∧
      ((d.RecvRankBW k).isSome ↔ (0 ≤ k ∧ k < ranks)) ∧
      ((d.ScaledSendRankBW k).isSome ↔ (0 ≤ k ∧ k < ranks)) ∧
      ((d.ScaledRecvRankBW k).isSome ↔ (0 ≤ k ∧ k < ranks)) ∧
      d.SendData k = none ∧ d.RecvData k = none := by
  obtain ⟨d0, hd0, p1, p2, p3, p4, p5, p6⟩ := getFromCallCounts_char ranks sc rc a b t
  rw [hd] at hd0
  simp only [Prod.mk.injEq, Option.some.injEq] at hd0
  obtain ⟨hdd, -⟩ := hd0
  subst hdd
  intro k
  by_cases hP : 0 ≤ k ∧ k < ranks <;>
    simp [p1 k, p2 k, p3 k, p4 k, p5 k, p6 k, hP]

theorem callsLoop_sizes_irrel (f : Scaler) (ranks : Int) (scc rcc : IMap (IMap Int))
    (a1 b1 a2 b2 : Int) (tt : IMap (IMap ℚ)) :
    ∀ (L : List Int) (m : IMap CallData),
      callsLoop f ranks scc rcc a1 b1 tt L m = callsLoop f ranks scc rcc a2 b2 tt L m := by
  intro L
  induction L with
  | nil => intro m; rfl
  | cons c rest ih =>
    intro m
    unfold callsLoop
    have hgen : GetFromCallCountsGen f ranks (iget scc c mEmpty) (iget rcc c mEmpty) a1 b1
        (iget tt c mEmpty)
        = GetFromCallCountsGen f ranks (iget scc c mEmpty) (iget rcc c mEmpty) a2 b2
          (iget tt c mEmpty) := rfl
    rw [hgen]
    rcases GetFromCallCountsGen f ranks (iget scc c mEmpty) (iget rcc c mEmpty) a2 b2
        (iget tt c mEmpty) with ⟨cd, err⟩
    cases err with
    | some e => rfl
    | none => exact ih (iput m c (cd.getD newCallData))

/-! ### Concrete inputs for the closed instances below -/

/-- Concrete rank map with entries for ranks 0 and 1 only. -/
def cMapI (x y : Int) : IMap Int :=
  fun k => if k = 0 then some x else if k = 1 then some y else none

/-- Concrete rank map with entries for ranks 0 and 1 only. -/
def cMapQ (x y : ℚ) : IMap ℚ :=
  fun k => if k = 0 then some x else if k = 1 then some y else none

/-- Concrete per-call map with an entry for call 0 only. -/
def cCallsI (m : IMap Int) : IMap (IMap Int) := fun c => if c = 0 then some m else none

/-- Concrete per-call map with an entry for call 0 only. -/
def cCallsQ (m : IMap ℚ) : IMap (IMap ℚ) := fun c => if c = 0 then some m else none

/-- A Unit Scaler that always fails (used to exhibit a failing per-call
computation). -/
def errScaler : Scaler := fun _ _ => Except.error "X"

/-- Per-call outer maps whose every call has an (empty) inner map:
extensionally equal, through Go's defaulting reads, to the all-absent
`mEmpty`. -/
def someEmptyCallsI : IMap (IMap Int) := fun _ => some mEmpty

/-- See `someEmptyCallsI`. -/
def someEmptyCallsQ : IMap (IMap ℚ) := fun _ => some mEmpty

/-! ### The claims -/

/-- C1: for every `ranks ≥ 0` and maps `sendCounts`, `recvCounts`,
`execTimes` with `execTimes[r] > 0` for every rank `r` in `[0, ranks)`,
`GetFromCallCounts` returns without error a `CallData` in which
`SendRankBW[r]` equals `float64(sendCounts[r]) / execTimes[r]` and
`RecvRankBW[r]` equals `float64(recvCounts[r]) / execTimes[r]` for every
rank `r` in `[0, ranks)` (division in the exact-rational model standing
for IEEE-754 float64 division). -/
theorem C1_per_call_bandwidth (ranks : Int) (sendCounts recvCounts : IMap Int)
    (a b : Int) (execTimes : IMap ℚ)
    (hranks : 0 ≤ ranks)
    (hpos : ∀ r : Int, 0 ≤ r → r < ranks → 0 < iget execTimes r 0) :
    ∃ d : CallData,
      GetFromCallCounts ranks sendCounts recvCounts a b execTimes = (some d, none) ∧
      ∀ r : Int, 0 ≤ r → r < ranks →
        d.SendRankBW r = some (((iget sendCounts r 0 : Int) : ℚ) / iget execTimes r 0) ∧
        d.RecvRankBW r = some (((iget recvCounts r 0 : Int) : ℚ) / iget execTimes r 0) := by
  obtain ⟨d, hd, p1, p2, -, -, -, -⟩ :=
    getFromCallCounts_char ranks sendCounts recvCounts a b execTimes
  refine ⟨d, hd, ?_⟩
  intro r hr0 hr1
  rw [p1 r, p2 r, if_pos ⟨hr0, hr1⟩, if_pos ⟨hr0, hr1⟩]
  exact ⟨rfl, rfl⟩

/-- Witness for C1 at the spec §8 end-to-end example: ranks = 2,
sendTotals = \x7b0: 1000, 1: 2000\x7d, recvTotals = \x7b0: 500, 1: 0\x7d,
execTimes = \x7b0: 1, 1: 2\x7d. -/
theorem C1_per_call_bandwidth_witness :
    ∃ d : CallData,
      GetFromCallCounts 2 (cMapI 1000 2000) (cMapI 500 0) 4 4 (cMapQ 1 2) = (some d, none) ∧
      ∀ r : Int, 0 ≤ r → r < 2 →
        d.SendRankBW r = some (((iget (cMapI 1000 2000) r 0 : Int) : ℚ) / iget (cMapQ 1 2) r 0) ∧
        d.RecvRankBW r = some (((iget (cMapI 500 0) r 0 : Int) : ℚ) / iget (cMapQ 1 2) r 0) :=
  C1_per_call_bandwidth 2 (cMapI 1000 2000) (cMapI 500 0) 4 4 (cMapQ 1 2) (by norm_num)
    (fun r hr0 hr1 => by
      have hcase : r = 0 ∨ r = 1 := by omega
      rcases hcase with h | h <;> subst h <;> simp [iget, cMapQ])

/-- C2 counterexample: at the concrete input ranks = 1,
sendCounts = recvCounts = \x7b0: 3\x7d, execTimes = \x7b0: 1\x7d, the
returned `CallData` has a send-bandwidth entry for rank 0 but NO entry for
rank 0 in the send-bytes map `SendData` — refuting that all eight per-rank
maps contain a present entry for every rank in `[0, ranks)`. -/
theorem C2_all_maps_counterexample :
    ((GetFromCallCounts 1 (cMapI 3 0) (cMapI 3 0) 1 1 (cMapQ 1 1)).1.map
      (fun d => (d.SendData 0, d.SendRankBW 0))) = some (none, some 3) := by
  norm_num [GetFromCallCounts, GetFromCallCountsGen, bwLoop, bwStep, goIntRange, sbwOf,
    iget, iput, mEmpty, scaleFloat64s, scaleIdx, scalePfx, newCallData, cMapI, cMapQ, List.range]

/-- C2 amended: every `CallData` produced by a successful
`GetFromCallCounts`, and every per-call entry of a successful
`GetFromCallsCounts`, has exactly `ranks` entries keyed `0..ranks-1` with
no gaps in the four bandwidth maps (`SendRankBW`, `RecvRankBW`,
`ScaledSendRankBW`, `ScaledRecvRankBW`); but the send-bytes map `SendData`
and the recv-bytes map `RecvData` are allocated and never populated — they
have no entry for any rank. -/
theorem C2_all_maps_amended :
    (∀ (ranks : Int) (sc rc : IMap Int) (a b : Int) (t : IMap ℚ) (d : CallData),
      GetFromCallCounts ranks sc rc a b t = (some d, none) →
      ∀ k : Int,
        ((d.SendRankBW k).isSome ↔ (0 ≤ k ∧ k < ranks)) ∧
        ((d.RecvRankBW k).isSome ↔ (0 ≤ k ∧ k < ranks)) ∧
        ((d.ScaledSendRankBW k).isSome ↔ (0 ≤ k ∧ k < ranks)) ∧
        ((d.ScaledRecvRankBW k).isSome ↔ (0 ≤ k ∧ k < ranks)) ∧
        d.SendData k = none ∧ d.RecvData k = none) ∧
    (∀ (numCalls ranks : Int) (scc rcc : IMap (IMap Int)) (a b : Int) (tt : IMap (IMap ℚ))
      (D : CallsData) (c : Int) (cd : CallData),
      GetFromCallsCounts numCalls ranks scc rcc a b tt = (some D, none) →
      D.CallData c = some cd →
      ∀ k : Int,
        ((cd.SendRankBW k).isSome ↔ (0 ≤ k ∧ k < ranks)) ∧
        ((cd.RecvRankBW k).isSome ↔ (0 ≤ k ∧ k < ranks)) ∧
        ((cd.ScaledSendRankBW k).isSome ↔ (0 ≤ k ∧ k < ranks)) ∧
        ((cd.ScaledRecvRankBW k).isSome ↔ (0 ≤ k ∧ k < ranks)) ∧
        cd.SendData k = none ∧ cd.RecvData k = none) := by
  constructor
  · exact getFromCallCounts_domain
  · intro numCalls ranks scc rcc a b tt D c cd hD hc
    unfold GetFromCallsCounts GetFromCallsCountsGen at hD
    rcases hloop : callsLoop scaleFloat64s ranks scc rcc a b tt (goIntRange numCalls) mEmpty
      with e | m <;> rw [hloop] at hD
    · exact absurd hD (by simp)
    · simp only [Prod.mk.injEq, Option.some.injEq] at hD
      obtain ⟨hDm, -⟩ := hD
      subst hDm
      change m c = some cd at hc
      obtain ⟨hmem, hfr⟩ := callsLoop_ok_entries scaleFloat64s ranks scc rcc a b tt
        (goIntRange numCalls) mEmpty m hloop
      by_cases hcmem : c ∈ goIntRange numCalls
      · obtain ⟨cd0, hcd0, hm⟩ := hmem c hcmem
        rw [hm] at hc
        injection hc with hc
        subst hc
        exact getFromCallCounts_domain ranks (iget scc c mEmpty) (iget rcc c mEmpty) a b
          (iget tt c mEmpty) cd0 hcd0
      · rw [hfr c hcmem] at hc
        exact absurd hc (by simp [mEmpty])

/-- Witness for C2 amended at the counterexample's concrete input. -/
theorem C2_all_maps_amended_witness :
    ∃ d : CallData,
      GetFromCallCounts 1 (cMapI 3 0) (cMapI 3 0) 1 1 (cMapQ 1 1) = (some d, none) ∧
      ((d.SendRankBW 0).isSome ↔ ((0 : Int) ≤ 0 ∧ (0 : Int) < 1)) ∧
      d.SendData 0 = none ∧ d.RecvData 0 = none := by
  obtain ⟨d, hd, -⟩ := getFromCallCounts_char 1 (cMapI 3 0) (cMapI 3 0) 1 1 (cMapQ 1 1)
  obtain ⟨q1, -, -, -, q5, q6⟩ :=
    C2_all_maps_amended.1 1 (cMapI 3 0) (cMapI 3 0) 1 1 (cMapQ 1 1) d hd 0
  exact ⟨d, hd, q1, q5, q6⟩

/-- C3 counterexample: with ranks = 1, counts \x7b0: 5\x7d and an
execution-time table with NO entry for rank 0, `GetFromCallCounts` returns
with error component `nil` — the missing entry is not treated as a
data-availability error, refuting that the computation fails for that
call. -/
theorem C3_missing_time_counterexample :
    (GetFromCallCounts 1 (cMapI 5 0) (cMapI 5 0) 1 1 mEmpty).2 = none := by
  norm_num [GetFromCallCounts, GetFromCallCountsGen, bwLoop, bwStep, goIntRange, sbwOf,
    iget, iput, mEmpty, scaleFloat64s, scaleIdx, scalePfx, newCallData, cMapI, List.range]

/-- C3 amended: a missing `execTimes` entry for a rank in `[0, ranks)` is
NOT detected: Go's map read silently defaults the execution time to zero,
the rank's bandwidths are computed as `count / 0` (a division by zero:
non-finite under IEEE-754, `0` in the exact-rational model), and
`GetFromCallCounts` returns without error. -/
theorem C3_missing_time_amended (ranks : Int) (sc rc : IMap Int) (a b : Int) (t : IMap ℚ)
    (r : Int) (hr0 : 0 ≤ r) (hr1 : r < ranks) (hmiss : t r = none) :
    ∃ d : CallData, GetFromCallCounts ranks sc rc a b t = (some d, none) ∧
      d.SendRankBW r = some (((iget sc r 0 : Int) : ℚ) / 0) ∧
      d.RecvRankBW r = some (((iget rc r 0 : Int) : ℚ) / 0) := by
  obtain ⟨d, hd, p1, p2, -, -, -, -⟩ := getFromCallCounts_char ranks sc rc a b t
  have ht0 : iget t r 0 = 0 := by simp [iget, hmiss]
  refine ⟨d, hd, ?_, ?_⟩
  · rw [p1 r, if_pos ⟨hr0, hr1⟩]
    simp only [sbwOf, ht0]
  · rw [p2 r, if_pos ⟨hr0, hr1⟩]
    simp only [sbwOf, ht0]

/-- Witness for C3 amended: ranks = 1, counts \x7b0: 5\x7d, empty
execution-time table, rank 0. -/
theorem C3_missing_time_amended_witness :
    ∃ d : CallData, GetFromCallCounts 1 (cMapI 5 0) (cMapI 5 0) 1 1 mEmpty = (some d, none) ∧
      d.SendRankBW 0 = some (((iget (cMapI 5 0) 0 0 : Int) : ℚ) / 0) ∧
      d.RecvRankBW 0 = some (((iget (cMapI 5 0) 0 0 : Int) : ℚ) / 0) :=
  C3_missing_time_amended 1 (cMapI 5 0) (cMapI 5 0) 1 1 mEmpty 0 (by norm_num) (by norm_num) rfl

/-- C4 counterexample: ranks = 2, sendCounts = \x7b0: 0, 1: 2000000\x7d,
execTimes = \x7b0: 1, 1: 1\x7d. Rank 0's send bandwidth is exactly 0, yet
the send unit of the returned `CallData` is "MB/s": the unit is one field
per direction, overwritten at rank 1's iteration by the Scaler's unit, so
the unit associated with rank 0's scaled (zero) bandwidth in the returned
data is not the base unit "B/s" — refuting the claim as stated. -/
theorem C4_zero_bypass_counterexample :
    ((GetFromCallCounts 2 (cMapI 0 2000000) mEmpty 1 1 (cMapQ 1 1)).1.map
      (fun d => (d.SendRankBW 0, d.ScaledSendRankBW 0, d.ScaledSendRankBWUnit)))
      = some (some 0, some 0, "MB/s") := by
  norm_num [GetFromCallCounts, GetFromCallCountsGen, bwLoop, bwStep, goIntRange, sbwOf,
    iget, iput, mEmpty, scaleFloat64s, scaleIdx, scalePfx, newCallData, cMapI, cMapQ, List.range]
  rfl

/-- C4 amended: for every rank whose computed send (resp. recv) bandwidth
is exactly 0, the Unit Scaler is not invoked for that rank's value — the
rank's scaled entry is the zero value copied through unchanged, identical
under any two scalers — and the unit field is set to "B/s" at that rank's
iteration; but the unit is a single per-direction field shared by all
ranks and overwritten by later iterations, so the unit in the returned
`CallData` is only guaranteed to be "B/s" when the zero-bandwidth rank is
the last rank. -/
theorem C4_zero_bypass_amended (f g : Scaler) (ranks : Int) (sc rc : IMap Int)
    (a b a2 b2 : Int) (t : IMap ℚ) (df dg : CallData)
    (hf : GetFromCallCountsGen f ranks sc rc a b t = (some df, none))
    (hg : GetFromCallCountsGen g ranks sc rc a2 b2 t = (some dg, none))
    (r : Int) (hr0 : 0 ≤ r) (hr1 : r < ranks) :
    (sbwOf sc t r = 0 →
      df.ScaledSendRankBW r = some 0 ∧ dg.ScaledSendRankBW r = some 0 ∧
      (r = ranks - 1 → df.ScaledSendRankBWUnit = "B/s")) ∧
    (sbwOf rc t r = 0 →
      df.ScaledRecvRankBW r = some 0 ∧ dg.ScaledRecvRankBW r = some 0 ∧
      (r = ranks - 1 → df.ScaledRecvRankBWUnit = "B/s")) := by
  have hfl := getFromCallCountsGen_ok_inv f ranks sc rc a b t df hf
  have hgl := getFromCallCountsGen_ok_inv g ranks sc rc a2 b2 t dg hg
  have hmem : r ∈ goIntRange ranks := (goIntRange_mem ranks r).mpr ⟨hr0, hr1⟩
  have hzf := bwLoop_ok_zero f sc rc t (goIntRange ranks) newCallData df hfl r hmem
  have hzg := bwLoop_ok_zero g sc rc t (goIntRange ranks) newCallData dg hgl r hmem
  have hlast := goIntRange_getLast ranks (by omega)
  have hunit := bwLoop_ok_last_unit f sc rc t (goIntRange ranks) newCallData df (ranks - 1)
    hfl hlast
  constructor
  · intro hz
    exact ⟨hzf.1 hz, hzg.1 hz, fun hrl => hunit.1 (hrl ▸ hz)⟩
  · intro hz
    exact ⟨hzf.2 hz, hzg.2 hz, fun hrl => hunit.2 (hrl ▸ hz)⟩

/-- Witness for C4 amended: ranks = 1, all counts zero, execTimes
\x7b0: 1\x7d, rank 0 — the zero bandwidth is copied through and, rank 0
being the last rank, the returned unit is "B/s". -/
theorem C4_zero_bypass_amended_witness :
    ∃ d : CallData,
      GetFromCallCountsGen scaleFloat64s 1 (cMapI 0 0) (cMapI 0 0) 1 1 (cMapQ 1 1)
        = (some d, none) ∧
      d.ScaledSendRankBW 0 = some 0 ∧ d.ScaledSendRankBWUnit = "B/s" := by
  obtain ⟨d, hd, -⟩ := getFromCallCounts_char 1 (cMapI 0 0) (cMapI 0 0) 1 1 (cMapQ 1 1)
  have hz : sbwOf (cMapI 0 0) (cMapQ 1 1) 0 = 0 := by
    simp [sbwOf, iget, cMapI]
  have h := C4_zero_bypass_amended scaleFloat64s scaleFloat64s 1 (cMapI 0 0) (cMapI 0 0)
    1 1 1 1 (cMapQ 1 1) d d hd hd 0 (by norm_num) (by norm_num)
  exact ⟨d, hd, (h.1 hz).1, (h.1 hz).2.2 (by norm_num)⟩

/-- C5: the `sendDatatypeSize` and `recvDatatypeSize` arguments are
accepted but never used: for any two values of each, with every other
argument held equal, `GetFromCallCounts` and `GetFromCallsCounts` return
identical results — the computed "bandwidth" is the raw element-count
total divided by time, never multiplied by the datatype size, despite the
"B/s" label. -/
theorem C5_datatype_sizes_unused (numCalls ranks : Int) (scc rcc : IMap (IMap Int))
    (tt : IMap (IMap ℚ)) (sc rc : IMap Int) (t : IMap ℚ) (a1 b1 a2 b2 : Int) :
    GetFromCallCounts ranks sc rc a1 b1 t = GetFromCallCounts ranks sc rc a2 b2 t ∧
    GetFromCallsCounts numCalls ranks scc rcc a1 b1 tt
      = GetFromCallsCounts numCalls ranks scc rcc a2 b2 tt := by
  constructor
  · rfl
  · unfold GetFromCallsCounts GetFromCallsCountsGen
    rw [callsLoop_sizes_irrel scaleFloat64s ranks scc rcc a1 b1 a2 b2 tt]

/-- C6: if the per-call computation of any call id in `0..numCalls-1`
fails, `GetFromCallsCounts` returns an error together with no result data
at all (nil `CallsData`) — never a partial `CallsData` with the calls
computed before the failure. -/
theorem C6_fail_fast (f : Scaler) (numCalls ranks : Int) (scc rcc : IMap (IMap Int))
    (a b : Int) (tt : IMap (IMap ℚ)) (c : Int) (hc0 : 0 ≤ c) (hc1 : c < numCalls)
    (hfail : (GetFromCallCountsGen f ranks (iget scc c mEmpty) (iget rcc c mEmpty) a b
      (iget tt c mEmpty)).2 ≠ none) :
    ∃ e, GetFromCallsCountsGen f numCalls ranks scc rcc a b tt = (none, some e) := by
  unfold GetFromCallsCountsGen
  rcases hloop : callsLoop f ranks scc rcc a b tt (goIntRange numCalls) mEmpty with e | m
  · exact ⟨e, rfl⟩
  · exfalso
    obtain ⟨hmem, -⟩ :=
      callsLoop_ok_entries f ranks scc rcc a b tt (goIntRange numCalls) mEmpty m hloop
    obtain ⟨cd, hcd, -⟩ := hmem c ((goIntRange_mem numCalls c).mpr ⟨hc0, hc1⟩)
    rw [hcd] at hfail
    exact hfail rfl

/-- Witness for C6: one call, one rank, a nonzero count and time (so the
scaler is consulted) and a scaler that fails — the aggregation returns
`(nil, error)`. -/
theorem C6_fail_fast_witness :
    ∃ e, GetFromCallsCountsGen errScaler 1 1 (cCallsI (cMapI 1 0)) (cCallsI (cMapI 1 0))
      1 1 (cCallsQ (cMapQ 1 1)) = (none, some e) :=
  C6_fail_fast errScaler 1 1 (cCallsI (cMapI 1 0)) (cCallsI (cMapI 1 0)) 1 1
    (cCallsQ (cMapQ 1 1)) 0 (by norm_num) (by norm_num)
    (by
      norm_num [GetFromCallCountsGen, bwLoop, bwStep, goIntRange, sbwOf, iget, iput, mEmpty,
        errScaler, newCallData, cCallsI, cCallsQ, cMapI, cMapQ, List.range]
      exact fun hcon => Option.noConfusion hcon)

/-- C7: the Report Driver reduces the raw compact count representation
before invoking the Aggregator: for every call id and rank, the total read
from the reduced map (`driverInstance` passes `reduceCounts rawSend` and
`reduceCounts rawRecv` to `GetFromCallsCounts`) equals the sum of the raw
per-(call, rank) list of integer counts; in particular a raw list
[3, 4, 5] reduces to 12. -/
theorem C7_raw_count_reduction :
    (∀ (raw : IMap (IMap (List Int))) (call rank : Int),
      iget (iget (reduceCounts raw) call mEmpty) rank 0
        = (iget (iget raw call mEmpty) rank []).sum) ∧
    iget (reduceRanksData (fun k => if k = 1 then some [3, 4, 5] else none)) 1 0 = 12 := by
  constructor
  · intro raw call rank
    rcases hrc : raw call with _ | rd
    · simp [reduceCounts, iget, mEmpty, hrc]
    · rcases hrd : rd rank with _ | cs
      · simp [reduceCounts, reduceRanksData, iget, mEmpty, hrc, hrd]
      · rcases cs with _ | ⟨c0, cs0⟩
        · simp [reduceCounts, reduceRanksData, iget, mEmpty, hrc, hrd]
        · simp [reduceCounts, reduceRanksData, iget, mEmpty, hrc, hrd, List.sum_eq_foldl]
  · norm_num [reduceRanksData, iget]

/-- C8: the rendered report is, for each call id in ascending order, a
header line identifying the call, a column-header line, one line per rank
in ascending rank order with the unscaled send and receive bandwidths
2-decimal-formatted and tab-separated, and exactly one blank line after
each call block: the driver's accumulated output (`renderReport` over the
`sort.Ints`-sorted call ids, as `driverInstance` invokes it) equals the
spec-worded block concatenation `specReport`, and the rendered call order
is ascending. -/
theorem C8_report_format (callIds : List Int) (bw : CallsData) (numRanks : Int) :
    renderReport (sortInts callIds) bw numRanks = specReport callIds bw numRanks ∧
    List.Sorted (fun a b => a ≤ b) (sortInts callIds) := by
  constructor
  · rw [renderReport_eq_strJoin, specReport]
  · exact List.sorted_insertionSort _ _

/-- C9: if the communicator size, the send datatype size, or the receive
datatype size derived from the first count record is zero, the driver
fails the instance with an error — in `driverInstance` the three zero
checks precede the `GetFromCallsCounts` invocation and the report
rendering, so no bandwidth is computed and no report text is produced. -/
theorem C9_degenerate_dataset (hdr : CountsHeader) (callIds : List Int)
    (rawSend rawRecv : IMap (IMap (List Int))) (tt : IMap (IMap ℚ))
    (h : hdr.CommSize = 0 ∨ hdr.SendDatatypeSize = 0 ∨ hdr.RecvDatatypeSize = 0) :
    ∃ e, driverInstance hdr callIds rawSend rawRecv tt = Except.error e := by
  unfold driverInstance
  by_cases h1 : hdr.CommSize = 0
  · exact ⟨_, by rw [if_pos h1]⟩
  · by_cases h2 : hdr.SendDatatypeSize = 0
    · exact ⟨_, by rw [if_neg h1, if_pos h2]⟩
    · have h3 : hdr.RecvDatatypeSize = 0 := by tauto
      exact ⟨_, by rw [if_neg h1, if_neg h2, if_pos h3]⟩

/-- Witness for C9: a header with communicator size 0. -/
theorem C9_degenerate_dataset_witness :
    ∃ e, driverInstance ⟨0, 1, 1⟩ [] mEmpty mEmpty mEmpty = Except.error e :=
  C9_degenerate_dataset ⟨0, 1, 1⟩ [] mEmpty mEmpty mEmpty (Or.inl rfl)

/-- C10: `GetFromCallsCounts` is a pure function of its arguments: its
result is fully determined by the (extensional) content of the input maps
as read through Go's defaulting lookup — two invocations on inputs with
identical content yield identical `CallsData`, with no hidden state
influencing the result (the embedding as a total Lean function certifies
the absence of any global state in the Go source). -/
theorem C10_pure_function (numCalls ranks : Int) (scc scc2 rcc rcc2 : IMap (IMap Int))
    (a b : Int) (tt tt2 : IMap (IMap ℚ))
    (hs : ∀ c k, iget (iget scc c mEmpty) k 0 = iget (iget scc2 c mEmpty) k 0)
    (hr : ∀ c k, iget (iget rcc c mEmpty) k 0 = iget (iget rcc2 c mEmpty) k 0)
    (ht : ∀ c k, iget (iget tt c mEmpty) k 0 = iget (iget tt2 c mEmpty) k 0) :
    GetFromCallsCounts numCalls ranks scc rcc a b tt
      = GetFromCallsCounts numCalls ranks scc2 rcc2 a b tt2 := by
  unfold GetFromCallsCounts GetFromCallsCountsGen
  rw [callsLoop_congr scaleFloat64s ranks scc scc2 rcc rcc2 a b tt tt2 hs hr ht]

/-- Witness for C10: the all-absent outer map and the outer map whose
every call has an empty inner map have identical content under Go's
defaulting reads, and yield identical results. -/
theorem C10_pure_function_witness :
    GetFromCallsCounts 1 1 mEmpty mEmpty 1 1 mEmpty
      = GetFromCallsCounts 1 1 someEmptyCallsI someEmptyCallsI 1 1 someEmptyCallsQ :=
  C10_pure_function 1 1 mEmpty someEmptyCallsI mEmpty someEmptyCallsI 1 1 mEmpty someEmptyCallsQ
    (fun c k => by simp [iget, mEmpty, someEmptyCallsI])
    (fun c k => by simp [iget, mEmpty, someEmptyCallsI])
    (fun c k => by simp [iget, mEmpty, someEmptyCallsQ])

end BWProfiler
